import Mathlib

set_option maxHeartbeats 1000000

/- Shallow embedding of the MyApp-CLI scaffolding tool. The repository has
two program variants: the primary one (main.go, namespace MainGo) and an
earlier simpler revision (namespace SimpleVariant). External commands and
file-system calls are modelled by an environment that supplies the outcome
of each call the code makes, in the order the code makes them. Strings are
modelled as lists of characters; file paths as lists of path components. -/

/- Result of an os.Stat call: success (on a directory or a plain file),
a not-found error, or any other error such as permission denied. -/
inductive StatResult
  | ok (isDir : Bool)
  | errNotExist
  | errOther
deriving DecidableEq

/- Result of an os.Remove call: success, a not-found error, or any
other error. -/
inductive RemoveResult
  | removed
  | errNotExist
  | errOther
deriving DecidableEq

/- Truth value of os.IsNotExist applied to the error of a stat call: true
exactly for the not-found error; a nil error and other errors give false. -/
def osIsNotExist : StatResult → Bool
  | .errNotExist => true
  | _ => false

/- The CommandRunner struct: both variants define it identically; it only
records whether the platform is Windows. -/
structure CommandRunner where
  isWindows : Bool
deriving DecidableEq

/- getNPMCommand: npm.cmd on Windows, npm otherwise. -/
def CommandRunner.getNPMCommand (cr : CommandRunner) : String :=
  if cr.isWindows then "npm.cmd" else "npm"

/- getGHCommand: gh.exe on Windows, gh otherwise. -/
def CommandRunner.getGHCommand (cr : CommandRunner) : String :=
  if cr.isWindows then "gh.exe" else "gh"

/- Outcomes of the three tool probes run by checkPrerequisites, in the
source order git, gh, npm. -/
structure ToolEnv where
  gitOk : Bool
  ghOk : Bool
  npmOk : Bool
deriving DecidableEq

/- The fixed order of version probes attempted by checkPrerequisites:
each entry is the executable name and its argument list. -/
def probeOrder (cr : CommandRunner) : List (String × List String) :=
  [("git", ["--version"]), (cr.getGHCommand, ["--version"]),
   (cr.getNPMCommand, ["--version"])]

/- checkPrerequisites, identical in both variants: probe git, then the
GitHub CLI, then npm, each with a version invocation, returning on the
first failure the message naming the missing tool. The second component
records the probes actually executed, in order. -/
def checkPrerequisites (cr : CommandRunner) (env : ToolEnv) :
    Except String Unit × List (String × List String) :=
  if env.gitOk then
    if env.ghOk then
      if env.npmOk then
        (.ok (), probeOrder cr)
      else
        (.error "npm is not installed or not in PATH", probeOrder cr)
    else
      (.error "GitHub CLI (gh) is not installed or not in PATH",
       (probeOrder cr).take 2)
  else
    (.error "git is not installed or not in PATH", (probeOrder cr).take 1)

/- The set of White_Space code points trimmed by strings.TrimSpace
(Go unicode.IsSpace). -/
def goWhitespace : List Char :=
  ['\t', '\n', '\x0B', '\x0C', '\r', ' ', '\u0085', '\u00A0', '\u1680',
   '\u2000', '\u2001', '\u2002', '\u2003', '\u2004', '\u2005', '\u2006',
   '\u2007', '\u2008', '\u2009', '\u200A', '\u2028', '\u2029', '\u202F',
   '\u205F', '\u3000']

/- Go unicode.IsSpace as a character predicate. -/
def isSpaceGo (c : Char) : Bool := goWhitespace.contains c

/- strings.TrimSpace: drop leading and trailing whitespace. -/
def trimSpace (l : List Char) : List Char :=
  ((l.dropWhile isSpaceGo).reverse.dropWhile isSpaceGo).reverse

/- strings.Contains: pat occurs as a contiguous substring of s. -/
def containsSub (s pat : List Char) : Bool :=
  match s with
  | [] => pat.isEmpty
  | c :: rest => pat.isPrefixOf (c :: rest) || containsSub rest pat

/- strings.ContainsAny: some character of chars occurs in s. -/
def containsAny (s chars : List Char) : Bool :=
  s.any (fun c => chars.contains c)

/- Scan helper of strings.Replace with count 1 and a non-empty pattern:
replace the first occurrence of pat, leaving everything else unchanged. -/
def replaceOnceGo (pat rep : List Char) : List Char → List Char
  | [] => []
  | c :: rest =>
    if pat.isPrefixOf (c :: rest) then rep ++ (c :: rest).drop pat.length
    else c :: replaceOnceGo pat rep rest

/- strings.Replace(s, pat, rep, 1): with an empty pattern the replacement
is inserted once at the front; otherwise the first occurrence of pat is
replaced by rep. -/
def replaceOnce (s pat rep : List Char) : List Char :=
  if pat.isEmpty then rep ++ s else replaceOnceGo pat rep s

/- The defaultProjectName constant, shared by both variants. -/
def defaultProjectName : List Char := "my-new-app".data

/- The characters rejected by the name validation in the primary variant. -/
def invalidChars : List Char := "\\/:*?\"<>|".data

/- Resolution of one line read at the name prompt, as both variants do it:
trim whitespace and substitute the default name for an empty result. -/
def resolveRead (line : List Char) : List Char :=
  if trimSpace line = [] then defaultProjectName else trimSpace line

namespace MainGo

/- The projectsDir constant of the primary variant. -/
def projectsDir : List Char := "C:\\Users\\andre\\NextJS-Projects".data

/- The webappsDir constant of the primary variant. -/
def webappsDir : List Char := "webapps".data

/- filepath.Join(projectsDir, webappsDir, name), kept as the list of the
three joined components. -/
def projectPath (name : List Char) : List (List Char) :=
  [projectsDir, webappsDir, name]

/- isProjectExists: stat the target path and report existence unless the
stat error is the not-found error. fs gives the stat outcome per path. -/
def isProjectExists (fs : List (List Char) → StatResult)
    (name : List Char) : Bool :=
  !(osIsNotExist (fs (projectPath name)))

/- Messages printed by the prompt loop: the prompt itself, the
already-exists rejection, and the invalid-characters rejection. -/
inductive Msg
  | prompt
  | alreadyExists (name : List Char)
  | invalidName
deriving DecidableEq

/- promptProjectName of the primary variant: loop over the successive
read results of standard input (none models a read error, after the list
is exhausted reads also fail), resolving each line, rejecting a name that
exists on disk or contains an invalid character, and returning on a read
error the default name at once. Also returns the printed messages. -/
def promptProjectName (fs : List (List Char) → StatResult) :
    List (Option (List Char)) → List Char × List Msg
  | [] => (defaultProjectName, [Msg.prompt])
  | none :: _ => (defaultProjectName, [Msg.prompt])
  | some line :: rest =>
    if isProjectExists fs (resolveRead line) then
      ((promptProjectName fs rest).1,
       Msg.prompt :: Msg.alreadyExists (resolveRead line) ::
         (promptProjectName fs rest).2)
    else if containsAny (resolveRead line) invalidChars then
      ((promptProjectName fs rest).1,
       Msg.prompt :: Msg.invalidName :: (promptProjectName fs rest).2)
    else
      (resolveRead line, [Msg.prompt])

/- The ordered steps of createProject in the primary variant. -/
inductive CPStep
  | ensureDir
  | checkExists
  | chdirWebapps
  | cloneRepo
  | chdirProject
  | removeGit
  | gitInit
  | gitAdd
  | gitCommit
  | removeNodeModules
  | removeLock
  | npmInstall
  | readManifest
  | writeBackup
  | writeManifest
deriving DecidableEq, Fintype

/- The order in which createProject attempts its steps. -/
def stepOrder : List CPStep :=
  [.ensureDir, .checkExists, .chdirWebapps, .cloneRepo, .chdirProject,
   .removeGit, .gitInit, .gitAdd, .gitCommit, .removeNodeModules,
   .removeLock, .npmInstall, .readManifest, .writeBackup, .writeManifest]

/- Position of a step in stepOrder. -/
def stepIdx : CPStep → Nat
  | .ensureDir => 0
  | .checkExists => 1
  | .chdirWebapps => 2
  | .cloneRepo => 3
  | .chdirProject => 4
  | .removeGit => 5
  | .gitInit => 6
  | .gitAdd => 7
  | .gitCommit => 8
  | .removeNodeModules => 9
  | .removeLock => 10
  | .npmInstall => 11
  | .readManifest => 12
  | .writeBackup => 13
  | .writeManifest => 14

/- The fmt.Errorf format string with which createProject wraps the failure
of each step. -/
def stepErrMsg : CPStep → String
  | .ensureDir => "failed to create webapps directory: %v"
  | .checkExists => "directory %s already exists"
  | .chdirWebapps => "failed to change to webapps directory: %v"
  | .cloneRepo => "failed to clone repository: %v"
  | .chdirProject => "failed to change to project directory: %v"
  | .removeGit => "failed to remove existing .git directory: %v"
  | .gitInit => "failed to initialize git repository: %v"
  | .gitAdd => "failed to stage files: %v"
  | .gitCommit => "failed to create initial commit: %v"
  | .removeNodeModules => "failed to remove node_modules: %v"
  | .removeLock => "failed to remove package-lock.json: %v"
  | .npmInstall => "failed to install dependencies: %v"
  | .readManifest => "failed to read package.json: %v"
  | .writeBackup => "failed to create package.json backup: %v"
  | .writeManifest => "failed to write modified package.json: %v"

/- The exact predev line replaced by the manifest patch. -/
def predevOld : List Char :=
  ("\"predev\": \"npx convex dev --until-success && node setup.mjs --once && npx convex dashboard\"").data

/- The no-op placeholder that replaces the predev line. -/
def predevNew : List Char :=
  ("\"predev\": \"echo Skipping predev script for initial setup\"").data

/- Outcome of every call createProject makes, in program order: the name
being created, the stat outcomes for isProjectExists, and the success of
each subsequent filesystem call and external command. manifestContents is
the result of reading package.json (none models a read error). -/
structure CPEnv where
  projectName : List Char
  fs : List (List Char) → StatResult
  mkdirOk : Bool
  chdirWebappsOk : Bool
  cloneOk : Bool
  chdirProjectOk : Bool
  removeGitOk : Bool
  gitInitOk : Bool
  gitAddOk : Bool
  gitCommitOk : Bool
  removeNodeModulesOk : Bool
  removeLockResult : RemoveResult
  npmInstallOk : Bool
  manifestContents : Option (List Char)
  writeBackupOk : Bool
  writeManifestOk : Bool

/- What a run of createProject did: its return value, the steps attempted
in order, and the contents passed to the WriteFile calls on
package.json.backup and package.json when those calls were made. -/
structure CPResult where
  result : Except CPStep Unit
  attempted : List CPStep
  backupWrite : Option (List Char)
  manifestWrite : Option (List Char)

/- The manifest-patch tail of createProject (source lines 210 to 231):
read package.json (failure aborts), write the unmodified backup copy
(failure aborts), then write back the content with the predev line
replaced once. The records carry the steps attempted from the start of
the whole pipeline. -/
def patchManifest (env : CPEnv) : CPResult :=
  match env.manifestContents with
  | none => ⟨.error .readManifest, stepOrder.take 13, none, none⟩
  | some content =>
    if env.writeBackupOk then
      if env.writeManifestOk then
        ⟨.ok (), stepOrder, some content,
         some (replaceOnce content predevOld predevNew)⟩
      else
        ⟨.error .writeManifest, stepOrder, some content,
         some (replaceOnce content predevOld predevNew)⟩
    else
      ⟨.error .writeBackup, stepOrder.take 14, some content, none⟩

/- The middle of the createProject pipeline (source lines 185 to 208):
git add, git commit, remove node_modules, remove package-lock.json
(tolerating a not-found error), npm install, then the manifest patch. -/
def commitPhase (env : CPEnv) : CPResult :=
  if env.gitAddOk then
    if env.gitCommitOk then
      if env.removeNodeModulesOk then
        if env.removeLockResult = RemoveResult.errOther then
          ⟨.error .removeLock, stepOrder.take 11, none, none⟩
        else
          if env.npmInstallOk then
            patchManifest env
          else
            ⟨.error .npmInstall, stepOrder.take 12, none, none⟩
      else
        ⟨.error .removeNodeModules, stepOrder.take 10, none, none⟩
    else
      ⟨.error .gitCommit, stepOrder.take 9, none, none⟩
  else
    ⟨.error .gitAdd, stepOrder.take 8, none, none⟩

/- createProject of the primary variant: the strict pipeline of main.go.
Each step runs only if every earlier step succeeded; the first failure
returns at once with the error of that step and nothing later runs. The
pipeline is written in three sequential pieces (head, commitPhase,
patchManifest) following the source order. -/
def createProject (env : CPEnv) : CPResult :=
  if env.mkdirOk then
    if isProjectExists env.fs env.projectName then
      ⟨.error .checkExists, stepOrder.take 2, none, none⟩
    else
      if env.chdirWebappsOk then
        if env.cloneOk then
          if env.chdirProjectOk then
            if env.removeGitOk then
              if env.gitInitOk then
                commitPhase env
              else
                ⟨.error .gitInit, stepOrder.take 7, none, none⟩
            else
              ⟨.error .removeGit, stepOrder.take 6, none, none⟩
          else
            ⟨.error .chdirProject, stepOrder.take 5, none, none⟩
        else
          ⟨.error .cloneRepo, stepOrder.take 4, none, none⟩
      else
        ⟨.error .chdirWebapps, stepOrder.take 3, none, none⟩
  else
    ⟨.error .ensureDir, stepOrder.take 1, none, none⟩

end MainGo

namespace SimpleVariant

/- promptProjectName of the simpler variant: a single read with no
validation loop. A read error yields the default name; otherwise the line
is trimmed and an empty result is replaced by the default name. -/
def promptProjectName (firstRead : Option (List Char)) : List Char :=
  match firstRead with
  | none => defaultProjectName
  | some line => resolveRead line

/- The ordered steps of createProject in the simpler variant. -/
inductive SPStep
  | absPath
  | checkExists
  | cloneRepo
  | chdirProject
  | npmInstall
deriving DecidableEq

/- The fmt.Errorf format string wrapping each step failure in the simpler
variant. -/
def spErrMsg : SPStep → String
  | .absPath => "failed to get absolute path: %v"
  | .checkExists => "directory %s already exists"
  | .cloneRepo => "failed to clone repository: %v"
  | .chdirProject => "failed to change to project directory: %v"
  | .npmInstall => "failed to install dependencies: %v"

/- Outcome of every call createProject of the simpler variant makes:
success of filepath.Abs, the os.Stat result on the target path, and the
success of the clone, the chdir and the npm install. -/
structure SPEnv where
  absOk : Bool
  statTarget : StatResult
  cloneOk : Bool
  chdirOk : Bool
  npmOk : Bool
deriving DecidableEq

/- createProject of the simpler variant: resolve the absolute path, check
the target with os.Stat treating only the not-found error as absence,
clone, change directory and install. Returns the first failing step and
the list of steps attempted in order. -/
def createProject (env : SPEnv) : Except SPStep Unit × List SPStep :=
  if env.absOk then
    if !(osIsNotExist env.statTarget) then
      (.error .checkExists, [.absPath, .checkExists])
    else
      if env.cloneOk then
        if env.chdirOk then
          if env.npmOk then
            (.ok (), [.absPath, .checkExists, .cloneRepo, .chdirProject,
                      .npmInstall])
          else
            (.error .npmInstall,
             [.absPath, .checkExists, .cloneRepo, .chdirProject,
              .npmInstall])
        else
          (.error .chdirProject,
           [.absPath, .checkExists, .cloneRepo, .chdirProject])
      else
        (.error .cloneRepo, [.absPath, .checkExists, .cloneRepo])
  else
    (.error .absPath, [.absPath])

/- The marker line whose presence in .env.local means the setup script
already ran. -/
def setupMarker : List Char := "SETUP_SCRIPT_RAN=1".data

/- checkSetupScript: open .env.local (none models a failed open, giving
false) and scan its lines for the marker. -/
def checkSetupScript (envLocal : Option (List (List Char))) : Bool :=
  match envLocal with
  | none => false
  | some lines => lines.any (fun l => containsSub l setupMarker)

/- Everything the simpler variant's main interacts with: the parsed
skip-setup flag, the platform, the tool probes, the first prompt read,
the createProject call outcomes, the .env.local contents and the success
of npm run dev. -/
structure MainEnv where
  cr : CommandRunner
  skipSetup : Bool
  tools : ToolEnv
  devOk : Bool
  firstRead : Option (List Char)
  proj : SPEnv
  envLocal : Option (List (List Char))

/- The observable top-level events of the simpler variant's main, in
order: the prerequisite check, a fatal log exit, the name prompt, the
createProject call, the setup-script check, and a spawned command with
its name and arguments (used for npm run dev). -/
inductive MainEvent
  | prereqCheck
  | fatalLog (msg : String)
  | namePrompt
  | projectCreate (name : List Char)
  | setupCheck
  | devServerRun (cmd : String) (args : List String)
deriving DecidableEq

/- main of the simpler variant: check prerequisites (fatal on failure);
with the skip-setup flag go straight to npm run dev; otherwise prompt for
the name, create the project (fatal on failure), check the setup marker
and start the development server. -/
def main (env : MainEnv) : List MainEvent :=
  MainEvent.prereqCheck ::
  match (checkPrerequisites env.cr env.tools).1 with
  | .error msg => [MainEvent.fatalLog ("Prerequisite check failed: " ++ msg)]
  | .ok _ =>
    if env.skipSetup then
      MainEvent.devServerRun env.cr.getNPMCommand ["run", "dev"] ::
        (if env.devOk then []
         else [MainEvent.fatalLog "Failed to start development server: %v"])
    else
      MainEvent.namePrompt ::
      MainEvent.projectCreate (promptProjectName env.firstRead) ::
      match (createProject env.proj).1 with
      | .error e =>
        [MainEvent.fatalLog ("Failed to create project: " ++ spErrMsg e)]
      | .ok _ =>
        MainEvent.setupCheck ::
        MainEvent.devServerRun env.cr.getNPMCommand ["run", "dev"] ::
          (if env.devOk then []
           else [MainEvent.fatalLog "Failed to start development server: %v"])

end SimpleVariant

/- A createProject environment for the primary variant in which every
call succeeds, the target path does not exist, and reading package.json
yields m. -/
def envAllGood (m : Option (List Char)) : MainGo.CPEnv where
  projectName := "test-app".data
  fs := fun _ => StatResult.errNotExist
  mkdirOk := true
  chdirWebappsOk := true
  cloneOk := true
  chdirProjectOk := true
  removeGitOk := true
  gitInitOk := true
  gitAddOk := true
  gitCommitOk := true
  removeNodeModulesOk := true
  removeLockResult := RemoveResult.removed
  npmInstallOk := true
  manifestContents := m
  writeBackupOk := true
  writeManifestOk := true

/- The all-good environment with a failing clone step. -/
def envCloneFail : MainGo.CPEnv :=
  { envAllGood (some MainGo.predevOld) with cloneOk := false }

/- A concrete environment for the simpler variant's main with the
skip-setup flag set, all tools present and a working dev server. -/
def mainEnv0 : SimpleVariant.MainEnv where
  cr := ⟨false⟩
  skipSetup := true
  tools := ⟨true, true, true⟩
  devOk := true
  firstRead := none
  proj := ⟨true, StatResult.errNotExist, true, true, true⟩
  envLocal := none

/- A not-always-failing stat oracle used in counterexamples: every path
exists as a directory. -/
def fsAllDirs : List (List Char) → StatResult := fun _ => StatResult.ok true

/- Every list whose elements all satisfy p is fully dropped by
dropWhile p. -/
theorem dropWhile_all_nil (p : Char → Bool) :
    ∀ l : List Char, l.all p = true → l.dropWhile p = [] := by
  intro l h
  induction l with
  | nil => rfl
  | cons a t ih =>
    simp only [List.all_cons, Bool.and_eq_true] at h
    simp only [List.dropWhile, h.1]
    exact ih h.2

/- Trimming an all-whitespace line gives the empty string. -/
theorem trimSpace_all_space (line : List Char)
    (h : line.all isSpaceGo = true) : trimSpace line = [] := by
  unfold trimSpace
  rw [dropWhile_all_nil isSpaceGo line h]
  rfl

/- A true isPrefixOf exhibits the list as the pattern followed by the
rest of the list. -/
theorem isPrefixOf_decomp :
    ∀ pat s : List Char, pat.isPrefixOf s = true →
      s = pat ++ s.drop pat.length := by
  intro pat
  induction pat with
  | nil => intro s _; simp
  | cons a as ih =>
    intro s h
    cases s with
    | nil => simp [List.isPrefixOf] at h
    | cons b bs =>
      simp only [List.isPrefixOf, Bool.and_eq_true, beq_iff_eq] at h
      obtain ⟨hab, hrest⟩ := h
      subst hab
      simpa using ih bs hrest

/- With no occurrence of the pattern, the replacement scan returns the
list unchanged. -/
theorem replaceOnceGo_id (pat rep : List Char) :
    ∀ s : List Char, containsSub s pat = false →
      replaceOnceGo pat rep s = s := by
  intro s h
  induction s with
  | nil => rfl
  | cons c t ih =>
    simp only [containsSub, Bool.or_eq_false_iff] at h
    simp only [replaceOnceGo, h.1]
    simp only [Bool.false_eq_true, if_false]
    rw [ih h.2]

/- With an occurrence of a non-empty pattern, the replacement scan
rewrites exactly the first occurrence and leaves every other character
in place. -/
theorem replaceOnceGo_decomp (pat rep : List Char) (hp : pat ≠ []) :
    ∀ s : List Char, containsSub s pat = true →
      ∃ p q, s = p ++ pat ++ q ∧ replaceOnceGo pat rep s = p ++ rep ++ q := by
  intro s h
  induction s with
  | nil =>
    simp only [containsSub, List.isEmpty_iff] at h
    exact absurd h hp
  | cons c t ih =>
    by_cases hpre : pat.isPrefixOf (c :: t) = true
    · refine ⟨[], (c :: t).drop pat.length, ?_, ?_⟩
      · simpa using isPrefixOf_decomp pat (c :: t) hpre
      · simp [replaceOnceGo, hpre]
    · simp only [containsSub, Bool.or_eq_true] at h
      rcases h with h | h
      · exact absurd h hpre
      · obtain ⟨p, q, h1, h2⟩ := ih h
        refine ⟨c :: p, q, by simp [h1], ?_⟩
        simp only [replaceOnceGo, hpre]
        simp only [Bool.false_eq_true, if_false]
        rw [h2]
        rfl

/- strings.Replace with count 1 and a non-empty contained pattern:
decomposition form. -/
theorem replaceOnce_decomp (s pat rep : List Char) (hp : pat ≠ [])
    (h : containsSub s pat = true) :
    ∃ p q, s = p ++ pat ++ q ∧ replaceOnce s pat rep = p ++ rep ++ q := by
  unfold replaceOnce
  rw [if_neg (by simp [List.isEmpty_iff, hp])]
  exact replaceOnceGo_decomp pat rep hp s h

/- strings.Replace with count 1 is the identity when the non-empty
pattern does not occur. -/
theorem replaceOnce_id (s pat rep : List Char) (hp : pat ≠ [])
    (h : containsSub s pat = false) : replaceOnce s pat rep = s := by
  unfold replaceOnce
  rw [if_neg (by simp [List.isEmpty_iff, hp])]
  exact replaceOnceGo_id pat rep s h

/- Distinct steps of the primary createProject wrap their failures in
distinct messages. -/
theorem stepErrMsg_inj :
    ∀ s1 s2 : MainGo.CPStep,
      MainGo.stepErrMsg s1 = MainGo.stepErrMsg s2 → s1 = s2 := by decide

/- Phase lemma: whenever the manifest-patch phase produced a manifest
write, or reached the manifest-write step, or succeeded, the manifest was
read successfully, the backup write succeeded and received exactly the
original content, the manifest write received the once-substituted
content, and the attempted steps are all of stepOrder. -/
theorem patchManifest_reach (env : MainGo.CPEnv) (r : MainGo.CPResult)
    (hr : MainGo.patchManifest env = r) :
    (MainGo.CPStep.writeManifest ∈ r.attempted
     ∨ r.manifestWrite ≠ none
     ∨ r.result = Except.ok ()) →
    ∃ c, env.manifestContents = some c ∧ env.writeBackupOk = true
      ∧ r.backupWrite = some c
      ∧ r.manifestWrite
          = some (replaceOnce c MainGo.predevOld MainGo.predevNew)
      ∧ r.attempted = MainGo.stepOrder := by
  unfold MainGo.patchManifest at hr
  repeat' split at hr
  all_goals subst hr
  all_goals intro h
  all_goals try rcases h with h | h | h
  all_goals
    first
    | exact absurd h (by dsimp only [MainGo.stepOrder]; decide)
    | exact absurd rfl h
    | exact Except.noConfusion h
    | exact ⟨_, by assumption, by assumption, rfl, rfl, rfl⟩

/- Phase lemma: the reach property carried through the commit phase. -/
theorem commitPhase_reach (env : MainGo.CPEnv) (r : MainGo.CPResult)
    (hr : MainGo.commitPhase env = r) :
    (MainGo.CPStep.writeManifest ∈ r.attempted
     ∨ r.manifestWrite ≠ none
     ∨ r.result = Except.ok ()) →
    ∃ c, env.manifestContents = some c ∧ env.writeBackupOk = true
      ∧ r.backupWrite = some c
      ∧ r.manifestWrite
          = some (replaceOnce c MainGo.predevOld MainGo.predevNew)
      ∧ r.attempted = MainGo.stepOrder := by
  unfold MainGo.commitPhase at hr
  repeat' split at hr
  all_goals first
    | exact patchManifest_reach env r hr
    | (subst hr
       intro h
       rcases h with h | h | h
       · exact absurd h (by dsimp only [MainGo.stepOrder]; decide)
       · exact absurd rfl h
       · exact Except.noConfusion h)

/- Master lemma: whenever the run of the primary createProject reached
the final manifest write (equivalently, produced a manifest write or
succeeded), the manifest was read successfully, the backup write
succeeded and received exactly the original content, the manifest write
received the once-substituted content, and every step was attempted. -/
theorem createProject_reach_patch (env : MainGo.CPEnv) (r : MainGo.CPResult)
    (hr : MainGo.createProject env = r) :
    (MainGo.CPStep.writeManifest ∈ r.attempted
     ∨ r.manifestWrite ≠ none
     ∨ r.result = Except.ok ()) →
    ∃ c, env.manifestContents = some c ∧ env.writeBackupOk = true
      ∧ r.backupWrite = some c
      ∧ r.manifestWrite
          = some (replaceOnce c MainGo.predevOld MainGo.predevNew)
      ∧ r.attempted = MainGo.stepOrder := by
  unfold MainGo.createProject at hr
  repeat' split at hr
  all_goals first
    | exact commitPhase_reach env r hr
    | (subst hr
       intro h
       rcases h with h | h | h
       · exact absurd h (by dsimp only [MainGo.stepOrder]; decide)
       · exact absurd rfl h
       · exact Except.noConfusion h)

/- Phase lemma: a failing manifest-patch phase attempted exactly the
steps through the failing one, and that step is the last attempted. -/
theorem patchManifest_attempted_of_error (env : MainGo.CPEnv)
    (r : MainGo.CPResult) (hr : MainGo.patchManifest env = r)
    (st : MainGo.CPStep) :
    r.result = Except.error st →
    r.attempted = MainGo.stepOrder.take (MainGo.stepIdx st + 1)
    ∧ r.attempted.getLast? = some st := by
  unfold MainGo.patchManifest at hr
  repeat' split at hr
  all_goals subst hr
  all_goals intro h
  all_goals
    first
    | exact Except.noConfusion h
    | (injection h with h; subst h; exact ⟨rfl, rfl⟩)

/- Phase lemma: the error-prefix property carried through the commit
phase. -/
theorem commitPhase_attempted_of_error (env : MainGo.CPEnv)
    (r : MainGo.CPResult) (hr : MainGo.commitPhase env = r)
    (st : MainGo.CPStep) :
    r.result = Except.error st →
    r.attempted = MainGo.stepOrder.take (MainGo.stepIdx st + 1)
    ∧ r.attempted.getLast? = some st := by
  unfold MainGo.commitPhase at hr
  repeat' split at hr
  all_goals first
    | exact patchManifest_attempted_of_error env r hr st
    | (subst hr
       intro h
       injection h with h
       subst h
       exact ⟨rfl, rfl⟩)

/- Master lemma: a failing run of the primary createProject attempted
exactly the steps through the failing one, in order, and that step is the
last one attempted. -/
theorem createProject_attempted_of_error (env : MainGo.CPEnv)
    (r : MainGo.CPResult) (hr : MainGo.createProject env = r)
    (st : MainGo.CPStep) :
    r.result = Except.error st →
    r.attempted = MainGo.stepOrder.take (MainGo.stepIdx st + 1)
    ∧ r.attempted.getLast? = some st := by
  unfold MainGo.createProject at hr
  repeat' split at hr
  all_goals first
    | exact commitPhase_attempted_of_error env r hr st
    | (subst hr
       intro h
       injection h with h
       subst h
       exact ⟨rfl, rfl⟩)



/-- C1: for every manifest content that contains the exact predev script
line, the manifest-patch step of the primary createProject writes a
package.json equal to the original with that one substring replaced by
the no-op placeholder and all other characters unchanged, and writes a
package.json.backup identical to the pre-patch content. -/
theorem claim_C1 (env : MainGo.CPEnv) (content : List Char)
    (h1 : env.manifestContents = some content)
    (hc : containsSub content MainGo.predevOld = true)
    (h : MainGo.CPStep.writeManifest ∈ (MainGo.createProject env).attempted) :
    (MainGo.createProject env).backupWrite = some content
    ∧ ∃ p q, content = p ++ MainGo.predevOld ++ q
        ∧ (MainGo.createProject env).manifestWrite
            = some (p ++ MainGo.predevNew ++ q) := by
  obtain ⟨c, hm, hwb, hb, hw, ha⟩ :=
    createProject_reach_patch env (MainGo.createProject env) rfl (Or.inl h)
  rw [h1] at hm
  injection hm with hm
  subst hm
  obtain ⟨p, q, hdec, hrep⟩ :=
    replaceOnce_decomp content MainGo.predevOld MainGo.predevNew
      (by decide) hc
  exact ⟨hb, p, q, hdec, by rw [hw, hrep]⟩

/-- Witness for C1 at a concrete environment whose manifest is exactly
the predev line. -/
theorem claim_C1_witness :
    (MainGo.createProject (envAllGood (some MainGo.predevOld))).backupWrite
        = some MainGo.predevOld
    ∧ ∃ p q, MainGo.predevOld = p ++ MainGo.predevOld ++ q
        ∧ (MainGo.createProject
              (envAllGood (some MainGo.predevOld))).manifestWrite
            = some (p ++ MainGo.predevNew ++ q) :=
  claim_C1 (envAllGood (some MainGo.predevOld)) MainGo.predevOld rfl
    (by decide) (by decide)

/-- C2: for every manifest content that does not contain the exact predev
line, the manifest-patch step of the primary createProject writes back
the package.json content unchanged, and still writes a backup equal to
the original content. -/
theorem claim_C2 (env : MainGo.CPEnv) (content : List Char)
    (h1 : env.manifestContents = some content)
    (hc : containsSub content MainGo.predevOld = false)
    (h : MainGo.CPStep.writeManifest ∈ (MainGo.createProject env).attempted) :
    (MainGo.createProject env).backupWrite = some content
    ∧ (MainGo.createProject env).manifestWrite = some content := by
  obtain ⟨c, hm, hwb, hb, hw, ha⟩ :=
    createProject_reach_patch env (MainGo.createProject env) rfl (Or.inl h)
  rw [h1] at hm
  injection hm with hm
  subst hm
  refine ⟨hb, ?_⟩
  rw [hw,
    replaceOnce_id content MainGo.predevOld MainGo.predevNew (by decide) hc]

/-- Witness for C2 at a concrete environment whose manifest does not
contain the predev line. -/
theorem claim_C2_witness :
    (MainGo.createProject (envAllGood (some "hello".data))).backupWrite
        = some "hello".data
    ∧ (MainGo.createProject (envAllGood (some "hello".data))).manifestWrite
        = some "hello".data :=
  claim_C2 (envAllGood (some "hello".data)) "hello".data rfl
    (by decide) (by decide)

/-- C3: if any step of the primary createProject fails, the run attempted
exactly the ordered steps through the failing one (so no later step
executed and nothing else ran afterwards), the failing step is the last
attempted, and the wrapping error messages identify the step uniquely. -/
theorem claim_C3 (env : MainGo.CPEnv) (st : MainGo.CPStep)
    (h : (MainGo.createProject env).result = Except.error st) :
    (MainGo.createProject env).attempted
        = MainGo.stepOrder.take (MainGo.stepIdx st + 1)
    ∧ (MainGo.createProject env).attempted.getLast? = some st
    ∧ ∀ s1 s2 : MainGo.CPStep,
        MainGo.stepErrMsg s1 = MainGo.stepErrMsg s2 → s1 = s2 := by
  obtain ⟨h1, h2⟩ :=
    createProject_attempted_of_error env (MainGo.createProject env) rfl st h
  exact ⟨h1, h2, stepErrMsg_inj⟩

/-- Witness for C3 at a concrete environment whose clone step fails. -/
theorem claim_C3_witness :
    (MainGo.createProject envCloneFail).attempted
        = MainGo.stepOrder.take (MainGo.stepIdx MainGo.CPStep.cloneRepo + 1)
    ∧ (MainGo.createProject envCloneFail).attempted.getLast?
        = some MainGo.CPStep.cloneRepo
    ∧ ∀ s1 s2 : MainGo.CPStep,
        MainGo.stepErrMsg s1 = MainGo.stepErrMsg s2 → s1 = s2 :=
  claim_C3 envCloneFail MainGo.CPStep.cloneRepo rfl

/-- C10: the backup write always happens, with the original manifest
content, strictly before the package.json write; and if reading the
manifest or writing the backup fails, createProject errors out without
ever attempting the package.json write. -/
theorem claim_C10 (env : MainGo.CPEnv) :
    (∀ c, (MainGo.createProject env).manifestWrite = some c →
       env.writeBackupOk = true
       ∧ ∃ orig, env.manifestContents = some orig
          ∧ (MainGo.createProject env).backupWrite = some orig
          ∧ c = replaceOnce orig MainGo.predevOld MainGo.predevNew
          ∧ ∃ l1 l2, (MainGo.createProject env).attempted
                = l1 ++ MainGo.CPStep.writeBackup :: l2
              ∧ MainGo.CPStep.writeManifest ∈ l2)
    ∧ ((env.manifestContents = none ∨ env.writeBackupOk = false) →
       (MainGo.createProject env).manifestWrite = none
       ∧ MainGo.CPStep.writeManifest ∉ (MainGo.createProject env).attempted
       ∧ ∃ st, (MainGo.createProject env).result = Except.error st) := by
  constructor
  · intro c hc
    obtain ⟨orig, hm, hwb, hb, hw, ha⟩ :=
      createProject_reach_patch env (MainGo.createProject env) rfl
        (Or.inr (Or.inl (by rw [hc]; exact fun hx => Option.noConfusion hx)))
    rw [hw] at hc
    injection hc with hc
    refine ⟨hwb, orig, hm, hb, hc.symm, MainGo.stepOrder.take 13,
      [MainGo.CPStep.writeManifest], ?_, by decide⟩
    rw [ha]
    decide
  · intro hfail
    have hnr : ∀ hd : (MainGo.CPStep.writeManifest
          ∈ (MainGo.createProject env).attempted
        ∨ (MainGo.createProject env).manifestWrite ≠ none
        ∨ (MainGo.createProject env).result = Except.ok ()), False := by
      intro hd
      obtain ⟨orig, hm, hwb, _, _, _⟩ :=
        createProject_reach_patch env (MainGo.createProject env) rfl hd
      rcases hfail with hf | hf
      · rw [hf] at hm; exact Option.noConfusion hm
      · rw [hf] at hwb; exact Bool.noConfusion hwb
    refine ⟨?_, ?_, ?_⟩
    · by_cases hmw : (MainGo.createProject env).manifestWrite = none
      · exact hmw
      · exact absurd (hnr (Or.inr (Or.inl hmw))) id
    · intro hmem
      exact hnr (Or.inl hmem)
    · cases hres : (MainGo.createProject env).result with
      | error st => exact ⟨st, rfl⟩
      | ok u =>
        cases u
        exact absurd (hnr (Or.inr (Or.inr hres))) id

/-- Witness for C10 at a concrete environment whose manifest read fails. -/
theorem claim_C10_witness :
    (MainGo.createProject (envAllGood none)).manifestWrite = none
    ∧ MainGo.CPStep.writeManifest
        ∉ (MainGo.createProject (envAllGood none)).attempted
    ∧ ∃ st, (MainGo.createProject (envAllGood none)).result
        = Except.error st :=
  (claim_C10 (envAllGood none)).2 (Or.inl rfl)

/- The name resolved from a prompt line is never empty: it is either the
default name or the non-empty trimmed input. -/
theorem resolveRead_ne_nil (line : List Char) : resolveRead line ≠ [] := by
  unfold resolveRead
  split
  · decide
  · assumption

/- The looping prompt never returns a name containing one of the invalid
characters: the default name contains none, and any other returned name
passed the validation. -/
theorem prompt_no_invalid (fs : List (List Char) → StatResult) :
    ∀ input,
      containsAny (MainGo.promptProjectName fs input).1 invalidChars
        = false := by
  intro input
  induction input with
  | nil => exact (by decide : containsAny defaultProjectName invalidChars = false)
  | cons head rest ih =>
    cases head with
    | none =>
      exact (by decide : containsAny defaultProjectName invalidChars = false)
    | some line =>
      cases hE : MainGo.isProjectExists fs (resolveRead line) with
      | true =>
        have hred : MainGo.promptProjectName fs (some line :: rest)
            = ((MainGo.promptProjectName fs rest).1,
               MainGo.Msg.prompt ::
                 MainGo.Msg.alreadyExists (resolveRead line) ::
                 (MainGo.promptProjectName fs rest).2) := by
          simp [MainGo.promptProjectName, hE]
        rw [hred]
        exact ih
      | false =>
        cases hI : containsAny (resolveRead line) invalidChars with
        | true =>
          have hred : MainGo.promptProjectName fs (some line :: rest)
              = ((MainGo.promptProjectName fs rest).1,
                 MainGo.Msg.prompt :: MainGo.Msg.invalidName ::
                   (MainGo.promptProjectName fs rest).2) := by
            simp [MainGo.promptProjectName, hE, hI]
          rw [hred]
          exact ih
        | false =>
          have hred : MainGo.promptProjectName fs (some line :: rest)
              = (resolveRead line, [MainGo.Msg.prompt]) := by
            simp [MainGo.promptProjectName, hE, hI]
          rw [hred]
          exact hI

/-- C4 (amended): every name returned by the looping prompt is non-empty
and free of the invalid characters, and is either collision-free or the
default name (which the read-error fallback returns without re-checking
collision); the simple-variant prompt guarantees only non-emptiness. -/
theorem claim_C4 (fs : List (List Char) → StatResult)
    (input : List (Option (List Char))) :
    ((MainGo.promptProjectName fs input).1 ≠ []
    ∧ containsAny (MainGo.promptProjectName fs input).1 invalidChars = false
    ∧ ((MainGo.promptProjectName fs input).1 = defaultProjectName
       ∨ MainGo.isProjectExists fs (MainGo.promptProjectName fs input).1
           = false))
    ∧ ∀ r : Option (List Char), SimpleVariant.promptProjectName r ≠ [] := by
  constructor
  · induction input with
    | nil =>
      exact ⟨(by decide : defaultProjectName ≠ []),
        (by decide : containsAny defaultProjectName invalidChars = false),
        Or.inl rfl⟩
    | cons head rest ih =>
      cases head with
      | none =>
        exact ⟨(by decide : defaultProjectName ≠ []),
          (by decide : containsAny defaultProjectName invalidChars = false),
          Or.inl rfl⟩
      | some line =>
        cases hE : MainGo.isProjectExists fs (resolveRead line) with
        | true =>
          have hred : MainGo.promptProjectName fs (some line :: rest)
              = ((MainGo.promptProjectName fs rest).1,
                 MainGo.Msg.prompt ::
                   MainGo.Msg.alreadyExists (resolveRead line) ::
                   (MainGo.promptProjectName fs rest).2) := by
            simp [MainGo.promptProjectName, hE]
          rw [hred]
          exact ih
        | false =>
          cases hI : containsAny (resolveRead line) invalidChars with
          | true =>
            have hred : MainGo.promptProjectName fs (some line :: rest)
                = ((MainGo.promptProjectName fs rest).1,
                   MainGo.Msg.prompt :: MainGo.Msg.invalidName ::
                     (MainGo.promptProjectName fs rest).2) := by
              simp [MainGo.promptProjectName, hE, hI]
            rw [hred]
            exact ih
          | false =>
            have hred : MainGo.promptProjectName fs (some line :: rest)
                = (resolveRead line, [MainGo.Msg.prompt]) := by
              simp [MainGo.promptProjectName, hE, hI]
            rw [hred]
            exact ⟨resolveRead_ne_nil line, hI, Or.inr hE⟩
  · intro r
    cases r with
    | none => exact (by decide : defaultProjectName ≠ [])
    | some line => exact resolveRead_ne_nil line

/-- Counterexample to C4 as stated: the simple-variant prompt returns a
name containing a slash unvalidated, and the looping prompt returns the
default name on immediate read error even when every path, including the
default name's target, already exists. -/
theorem claim_C4_cex :
    SimpleVariant.promptProjectName (some "bad/name".data) = "bad/name".data
    ∧ containsAny "bad/name".data invalidChars = true
    ∧ (MainGo.promptProjectName fsAllDirs []).1 = defaultProjectName
    ∧ MainGo.isProjectExists fsAllDirs defaultProjectName = true :=
  ⟨by decide, by decide, rfl, by decide⟩

/-- C5 (amended, looping variant): any prompt line resolving to a name
with an invalid character is rejected and the loop re-prompts, printing
the already-exists message exactly when the name also collides (that
check runs first) and the invalid-characters message otherwise; such a
name is never returned. -/
theorem claim_C5 (fs : List (List Char) → StatResult) (line : List Char)
    (rest : List (Option (List Char)))
    (h : containsAny (resolveRead line) invalidChars = true) :
    (MainGo.promptProjectName fs (some line :: rest)).1
        = (MainGo.promptProjectName fs rest).1
    ∧ (MainGo.promptProjectName fs (some line :: rest)).2
        = MainGo.Msg.prompt ::
            (if MainGo.isProjectExists fs (resolveRead line)
             then MainGo.Msg.alreadyExists (resolveRead line)
             else MainGo.Msg.invalidName) ::
            (MainGo.promptProjectName fs rest).2
    ∧ (MainGo.promptProjectName fs (some line :: rest)).1
        ≠ resolveRead line := by
  cases hE : MainGo.isProjectExists fs (resolveRead line) with
  | true =>
    have hred : MainGo.promptProjectName fs (some line :: rest)
        = ((MainGo.promptProjectName fs rest).1,
           MainGo.Msg.prompt ::
             MainGo.Msg.alreadyExists (resolveRead line) ::
             (MainGo.promptProjectName fs rest).2) := by
      simp [MainGo.promptProjectName, hE]
    rw [hred]
    refine ⟨rfl, by simp [hE], ?_⟩
    intro hEq
    have hni := prompt_no_invalid fs rest
    rw [hEq] at hni
    rw [h] at hni
    exact Bool.noConfusion hni
  | false =>
    have hred : MainGo.promptProjectName fs (some line :: rest)
        = ((MainGo.promptProjectName fs rest).1,
           MainGo.Msg.prompt :: MainGo.Msg.invalidName ::
             (MainGo.promptProjectName fs rest).2) := by
      simp [MainGo.promptProjectName, hE, h]
    rw [hred]
    refine ⟨rfl, by simp [hE], ?_⟩
    intro hEq
    have hni := prompt_no_invalid fs rest
    rw [hEq] at hni
    rw [h] at hni
    exact Bool.noConfusion hni

/-- Witness for the amended C5 at a concrete rejected name. -/
theorem claim_C5_witness :
    (MainGo.promptProjectName (fun _ => StatResult.errNotExist)
        [some "a*b".data, some "ok-name".data]).1
      = (MainGo.promptProjectName (fun _ => StatResult.errNotExist)
          [some "ok-name".data]).1
    ∧ (MainGo.promptProjectName (fun _ => StatResult.errNotExist)
          [some "a*b".data, some "ok-name".data]).2
        = MainGo.Msg.prompt ::
            (if MainGo.isProjectExists (fun _ => StatResult.errNotExist)
                (resolveRead "a*b".data)
             then MainGo.Msg.alreadyExists (resolveRead "a*b".data)
             else MainGo.Msg.invalidName) ::
            (MainGo.promptProjectName (fun _ => StatResult.errNotExist)
              [some "ok-name".data]).2
    ∧ (MainGo.promptProjectName (fun _ => StatResult.errNotExist)
        [some "a*b".data, some "ok-name".data]).1
      ≠ resolveRead "a*b".data :=
  claim_C5 (fun _ => StatResult.errNotExist) "a*b".data
    [some "ok-name".data] (by decide)

/-- Counterexample to C5 as stated: the simple-variant prompt returns a
candidate containing a slash instead of rejecting and re-prompting. -/
theorem claim_C5_cex :
    SimpleVariant.promptProjectName (some "my/app".data) = "my/app".data
    ∧ containsAny "my/app".data invalidChars = true :=
  ⟨by decide, by decide⟩

/-- C6: an empty or all-whitespace prompt line resolves to the default
name in both variants: the shared resolution step yields the default, the
simple variant returns it directly, and the looping variant returns it
when it does not collide. -/
theorem claim_C6 (line : List Char) (h : line.all isSpaceGo = true) :
    resolveRead line = defaultProjectName
    ∧ SimpleVariant.promptProjectName (some line) = defaultProjectName
    ∧ ∀ (fs : List (List Char) → StatResult)
        (rest : List (Option (List Char))),
        MainGo.isProjectExists fs defaultProjectName = false →
        (MainGo.promptProjectName fs (some line :: rest)).1
          = defaultProjectName := by
  have ht : trimSpace line = [] := trimSpace_all_space line h
  have hr : resolveRead line = defaultProjectName := by
    simp [resolveRead, ht]
  refine ⟨hr, hr, ?_⟩
  intro fs rest hE
  have hE2 : MainGo.isProjectExists fs (resolveRead line) = false := by
    rw [hr]; exact hE
  have hI : containsAny (resolveRead line) invalidChars = false := by
    rw [hr]; decide
  have hred : MainGo.promptProjectName fs (some line :: rest)
      = (resolveRead line, [MainGo.Msg.prompt]) := by
    simp [MainGo.promptProjectName, hE2, hI]
  rw [hred]
  exact hr

/-- Witness for C6 at a single-space line. -/
theorem claim_C6_witness :
    resolveRead " ".data = defaultProjectName
    ∧ SimpleVariant.promptProjectName (some " ".data) = defaultProjectName
    ∧ (MainGo.promptProjectName (fun _ => StatResult.errNotExist)
        [some " ".data]).1 = defaultProjectName := by
  obtain ⟨h1, h2, h3⟩ := claim_C6 " ".data (by decide)
  exact ⟨h1, h2, h3 (fun _ => StatResult.errNotExist) [] (by decide)⟩

/-- C7: checkPrerequisites probes git, the GitHub CLI and npm in that
fixed order via version invocations; the probes executed are always a
prefix of that order, the first failing probe yields the error naming
that tool with no later probe run, and the result is ok exactly when all
three probes succeed. -/
theorem claim_C7 (cr : CommandRunner) (env : ToolEnv) :
    (∃ k, (checkPrerequisites cr env).2 = (probeOrder cr).take k)
    ∧ (env.gitOk = false →
        checkPrerequisites cr env
          = (Except.error "git is not installed or not in PATH",
             (probeOrder cr).take 1))
    ∧ (env.gitOk = true → env.ghOk = false →
        checkPrerequisites cr env
          = (Except.error "GitHub CLI (gh) is not installed or not in PATH",
             (probeOrder cr).take 2))
    ∧ (env.gitOk = true → env.ghOk = true → env.npmOk = false →
        checkPrerequisites cr env
          = (Except.error "npm is not installed or not in PATH",
             probeOrder cr))
    ∧ ((checkPrerequisites cr env).1 = Except.ok ()
        ↔ env.gitOk = true ∧ env.ghOk = true ∧ env.npmOk = true) := by
  obtain ⟨g, gh, np⟩ := env
  refine ⟨?_, ?_, ?_, ?_, ?_, ?_⟩
  · cases g with
    | false => exact ⟨1, rfl⟩
    | true =>
      cases gh with
      | false => exact ⟨2, rfl⟩
      | true =>
        cases np with
        | false => exact ⟨3, rfl⟩
        | true => exact ⟨3, rfl⟩
  · intro h
    cases g with
    | false => rfl
    | true => exact Bool.noConfusion h
  · intro h1 h2
    cases g with
    | false => exact Bool.noConfusion h1
    | true =>
      cases gh with
      | false => rfl
      | true => exact Bool.noConfusion h2
  · intro h1 h2 h3
    cases g with
    | false => exact Bool.noConfusion h1
    | true =>
      cases gh with
      | false => exact Bool.noConfusion h2
      | true =>
        cases np with
        | false => rfl
        | true => exact Bool.noConfusion h3
  · intro h
    cases g with
    | false => exact Except.noConfusion h
    | true =>
      cases gh with
      | false => exact Except.noConfusion h
      | true =>
        cases np with
        | false => exact Except.noConfusion h
        | true => exact ⟨rfl, rfl, rfl⟩
  · rintro ⟨h1, h2, h3⟩
    cases g with
    | false => exact Bool.noConfusion h1
    | true =>
      cases gh with
      | false => exact Bool.noConfusion h2
      | true =>
        cases np with
        | false => exact Bool.noConfusion h3
        | true => rfl

/-- Witness for C7: with git present and the GitHub CLI missing, the
probe stops after two invocations with the gh error. -/
theorem claim_C7_witness :
    checkPrerequisites ⟨false⟩ ⟨true, false, true⟩
      = (Except.error "GitHub CLI (gh) is not installed or not in PATH",
         (probeOrder ⟨false⟩).take 2) :=
  (claim_C7 ⟨false⟩ ⟨true, false, true⟩).2.2.1 rfl rfl

/-- C8: in the flag variant, passing skip-setup makes main never prompt
for a name and never call createProject; when the prerequisite check
passes, the step right after it is the npm run dev invocation, after
which the program ends. -/
theorem claim_C8 (env : SimpleVariant.MainEnv) (h : env.skipSetup = true) :
    SimpleVariant.MainEvent.namePrompt ∉ SimpleVariant.main env
    ∧ (∀ n, SimpleVariant.MainEvent.projectCreate n ∉ SimpleVariant.main env)
    ∧ ((checkPrerequisites env.cr env.tools).1 = Except.ok () →
        SimpleVariant.main env
          = SimpleVariant.MainEvent.prereqCheck ::
            SimpleVariant.MainEvent.devServerRun env.cr.getNPMCommand
              ["run", "dev"] ::
            (if env.devOk = true then []
             else [SimpleVariant.MainEvent.fatalLog
                "Failed to start development server: %v"])) := by
  obtain ⟨cr, skip, ⟨g, gh, np⟩, dev, fr, proj, envl⟩ := env
  subst h
  refine ⟨?_, ?_, ?_⟩
  · cases g <;> cases gh <;> cases np <;> cases dev <;>
      simp [SimpleVariant.main, checkPrerequisites]
  · intro n
    cases g <;> cases gh <;> cases np <;> cases dev <;>
      simp [SimpleVariant.main, checkPrerequisites]
  · intro h2
    cases g <;> cases gh <;> cases np <;>
      first
      | rfl
      | exact Except.noConfusion h2

/-- Witness for C8 at a concrete environment with the flag set, all
tools present and a working dev server. -/
theorem claim_C8_witness :
    SimpleVariant.MainEvent.namePrompt ∉ SimpleVariant.main mainEnv0
    ∧ (∀ n, SimpleVariant.MainEvent.projectCreate n
        ∉ SimpleVariant.main mainEnv0)
    ∧ SimpleVariant.main mainEnv0
        = [SimpleVariant.MainEvent.prereqCheck,
           SimpleVariant.MainEvent.devServerRun "npm" ["run", "dev"]] := by
  obtain ⟨h1, h2, h3⟩ := claim_C8 mainEnv0 rfl
  refine ⟨h1, h2, ?_⟩
  rw [h3 rfl]
  rfl

/-- C9: in both variants the existence check reports a collision exactly
when the stat result is not the not-found error, so an existing plain
file or any other stat error behaves like an existing directory. -/
theorem claim_C9 (fs : List (List Char) → StatResult) (name : List Char) :
    (MainGo.isProjectExists fs name = true
      ↔ fs (MainGo.projectPath name) ≠ StatResult.errNotExist)
    ∧ ∀ env : SimpleVariant.SPEnv, env.absOk = true →
        ((SimpleVariant.createProject env).1
            = Except.error SimpleVariant.SPStep.checkExists
          ↔ env.statTarget ≠ StatResult.errNotExist) := by
  constructor
  · unfold MainGo.isProjectExists
    cases hfs : fs (MainGo.projectPath name) <;> simp [osIsNotExist]
  · intro env h
    obtain ⟨ao, st, co, ch, np⟩ := env
    subst h
    cases st <;> cases co <;> cases ch <;> cases np <;>
      simp [SimpleVariant.createProject, osIsNotExist]

/-- Witness for C9: a plain file at the target path counts as a
collision in both variants. -/
theorem claim_C9_witness :
    MainGo.isProjectExists (fun _ => StatResult.ok false) "x".data = true
    ∧ (SimpleVariant.createProject
        ⟨true, StatResult.ok false, true, true, true⟩).1
      = Except.error SimpleVariant.SPStep.checkExists := by
  refine ⟨?_, ?_⟩
  · exact (claim_C9 (fun _ => StatResult.ok false) "x".data).1.mpr (by decide)
  · exact ((claim_C9 (fun _ => StatResult.ok false) "x".data).2
      ⟨true, StatResult.ok false, true, true, true⟩ rfl).mpr (by decide)

/-- Witness for the amended C4 at a concrete input accepted by the
looping prompt. -/
theorem claim_C4_witness :
    (((MainGo.promptProjectName (fun _ => StatResult.errNotExist)
        [some "app1".data]).1 ≠ []
    ∧ containsAny (MainGo.promptProjectName
        (fun _ => StatResult.errNotExist) [some "app1".data]).1
        invalidChars = false
    ∧ ((MainGo.promptProjectName (fun _ => StatResult.errNotExist)
        [some "app1".data]).1 = defaultProjectName
       ∨ MainGo.isProjectExists (fun _ => StatResult.errNotExist)
          (MainGo.promptProjectName (fun _ => StatResult.errNotExist)
            [some "app1".data]).1 = false))
    ∧ ∀ r : Option (List Char), SimpleVariant.promptProjectName r ≠ []) :=
  claim_C4 (fun _ => StatResult.errNotExist) [some "app1".data]
